import Mathlib

/-!
Verification of the `mathematico` game orchestrator (`src/game.py`).

The orchestrator owns the shuffled deck (`available_cards`), the move
counter (`moves_played`) and the roster (`players`).  Players, boards and
the evaluator are external collaborators: the code is polymorphic over
them, so the embedding takes the player type `P`, the board type `B`, the
score type `S`, and the capability functions (`move`, `get_board`,
`evaluate`) as parameters.
-/

namespace Mathematico

/-- Modelled from the spec: `board.py` is not under `src/`; only the constant
`Board.SIZE` (the board side length) is used by the orchestrator, and the spec
fixes it at 5 (capacity 25, the "5×5 board" of the fixed default
configuration). -/
def Board.SIZE : Nat := 5

/-- The deck population built by `Game.__init__` before shuffling:
`[i for i in range(1, 14) for _ in range(4)]`. -/
def freshDeck : List Nat :=
  (List.range' 1 13).flatMap (fun i => List.replicate 4 i)

/-- The state owned by the `Game` class: `available_cards`, `moves_played`,
`players`.  `P` is the (duck-typed) player type. -/
structure Game (P : Type) where
  available_cards : List Nat
  moves_played : Nat
  players : List P
  deriving Repr, DecidableEq

variable {P B S : Type}

/-- `Game.__init__`: the deck is the population `freshDeck` permuted once by
`rnd.shuffle`; the shuffle's output is taken as the parameter `shuffled`
(randomness is external).  Counter starts at 0, roster empty. -/
def Game.init (P : Type) (shuffled : List Nat) : Game P :=
  { available_cards := shuffled, moves_played := 0, players := [] }

/-- `Game.finished`:
`self.moves_played >= Board.SIZE ** 2 or self.moves_played >= len(self.available_cards)`. -/
def Game.finished (g : Game P) : Bool :=
  decide (Board.SIZE ^ 2 ≤ g.moves_played)
    || decide (g.available_cards.length ≤ g.moves_played)

/-- `Game.take_next_card`: if finished return `None`; otherwise read
`available_cards[moves_played]`, increment the counter, return the card.
(The read is in bounds whenever `finished` is false, so `getD _ 0` agrees
with Python's checked indexing on every reachable state.) -/
def Game.take_next_card (g : Game P) : Option Nat × Game P :=
  if g.finished then (none, g)
  else
    let card := g.available_cards.getD g.moves_played 0
    (some card, { g with moves_played := g.moves_played + 1 })

/-- `Game.add_player`: raise `ValueError("Game is in progress")` when
`moves_played != 0`; otherwise append the player and return
`len(self.players) - 1`.  The error branch leaves the state untouched. -/
def Game.add_player (g : Game P) (player : P) : Except String Nat × Game P :=
  if g.moves_played ≠ 0 then (Except.error "Game is in progress", g)
  else
    let players := g.players ++ [player]
    (Except.ok (players.length - 1), { g with players := players })

/-- The content of the string built by `Game.__str__`: the already-played
prefix `available_cards[:moves_played]`, the "Current card" field
(`None` when finished, else `available_cards[moves_played]`), the move
number and the roster. -/
@[ext]
structure Snapshot (P : Type) where
  moves_played_list : List Nat
  current_card : Option Nat
  move_number : Nat
  players : List P
  deriving Repr, DecidableEq

/-- `Game.__str__`, as structured data. -/
def Game.snapshot (g : Game P) : Snapshot P :=
  { moves_played_list := g.available_cards.take g.moves_played
  , current_card :=
      if g.finished then none
      else some (g.available_cards.getD g.moves_played 0)
  , move_number := g.moves_played
  , players := g.players }

/-- Number of moves at which the game ends: `min(capacity, deck length)`.
(Derived bound used in statements and the loop measure.) -/
def Game.limit (g : Game P) : Nat :=
  min (Board.SIZE ^ 2) g.available_cards.length

/-- How many loop iterations of `Game.start` remain from state `g`. -/
def Game.stepsLeft (g : Game P) : Nat := g.limit - g.moves_played

theorem Game.finished_iff (g : Game P) :
    g.finished = true ↔ g.limit ≤ g.moves_played := by
  simp [Game.finished, Game.limit, min_le_iff]

theorem Game.finished_eq_false_iff (g : Game P) :
    g.finished = false ↔ g.moves_played < g.limit := by
  simp [Game.finished, Game.limit, lt_min_iff]

/-- The `while not self.finished()` loop body of `Game.start`:
`take_next_card`, `assert next_card is not None` (the `none` branch, which
yields `none` for the whole run, models an `AssertionError`), the
`print(self)` trace when verbose, then `player.move(next_card)` for every
player in roster order.  `acc` accumulates the emitted snapshots. -/
def Game.start_loop (move : P → Nat → P) (verbose : Bool) (g : Game P)
    (acc : List (Snapshot P)) : Option (Game P × List (Snapshot P)) :=
  if hf : g.finished then some (g, acc)
  else
    match h : g.take_next_card with
    | (none, _) => none
    | (some card, g1) =>
      let acc' := if verbose then acc ++ [g1.snapshot] else acc
      let g2 : Game P := { g1 with players := g1.players.map (fun p => move p card) }
      g2.start_loop move verbose acc'
termination_by g.stepsLeft
decreasing_by
  simp only [Game.take_next_card, hf, Bool.false_eq_true, if_false] at h
  obtain ⟨-, rfl⟩ := h
  have hlt := (Game.finished_eq_false_iff g).mp (Bool.not_eq_true _ ▸ hf)
  simp only [Game.stepsLeft, Game.limit] at *
  omega

/-- `Game.start`: run the loop, then
`return [evaluate(player.get_board()) for player in self.players]`.
Besides the scores the embedding returns the final state and the list of
snapshots printed along the way (empty when `verbose` is false). -/
def Game.start (move : P → Nat → P) (get_board : P → B) (evaluate : B → S)
    (verbose : Bool) (g : Game P) : Option (List S × Game P × List (Snapshot P)) :=
  match g.start_loop move verbose [] with
  | none => none
  | some (g', trace) =>
    some (g'.players.map (fun p => evaluate (get_board p)), g', trace)

/-- The cards the loop will deliver from state `g`: the deck slice
from the current counter up to the limit. -/
def Game.drawnCards (g : Game P) : List Nat :=
  (g.available_cards.drop g.moves_played).take g.stepsLeft

/-- Closed form of the state in which `Game.start`'s loop terminates. -/
def Game.finalState (move : P → Nat → P) (g : Game P) : Game P :=
  { available_cards := g.available_cards
  , moves_played := max g.moves_played g.limit
  , players := g.players.map (fun p => g.drawnCards.foldl move p) }

/-- Closed form of the snapshot printed during iteration `j` (0-based) of the
loop run from `g`: it is taken after `take_next_card` has incremented the
counter past card `moves_played + j` and before the players consume it. -/
def Game.snapAfter (move : P → Nat → P) (g : Game P) (j : Nat) : Snapshot P :=
  { moves_played_list := g.available_cards.take (g.moves_played + j + 1)
  , current_card :=
      if g.limit ≤ g.moves_played + j + 1 then none
      else some (g.available_cards.getD (g.moves_played + j + 1) 0)
  , move_number := g.moves_played + j + 1
  , players := g.players.map
      (fun p => ((g.available_cards.drop g.moves_played).take j).foldl move p) }

/-- Closed form of the snapshot list a run from `g` emits. -/
def Game.emitted (move : P → Nat → P) (verbose : Bool) (g : Game P) :
    List (Snapshot P) :=
  if verbose then (List.range g.stepsLeft).map (g.snapAfter move) else []

theorem Game.take_next_card_of_finished (g : Game P) (hf : g.finished = true) :
    g.take_next_card = (none, g) := by
  simp [Game.take_next_card, hf]

theorem Game.take_next_card_of_not_finished (g : Game P) (hf : g.finished = false) :
    g.take_next_card =
      (some (g.available_cards.getD g.moves_played 0),
       { g with moves_played := g.moves_played + 1 }) := by
  simp [Game.take_next_card, hf]

/-- One unfolding of the loop in the running case. -/
theorem Game.start_loop_step (move : P → Nat → P) (verbose : Bool) (g : Game P)
    (acc : List (Snapshot P)) (hf : g.finished = false) :
    g.start_loop move verbose acc =
      Game.start_loop move verbose
        { available_cards := g.available_cards
        , moves_played := g.moves_played + 1
        , players := g.players.map
            (fun p => move p (g.available_cards.getD g.moves_played 0)) }
        (if verbose then
            acc ++ [Game.snapshot { g with moves_played := g.moves_played + 1 }]
          else acc) := by
  rw [Game.start_loop, dif_neg (by simp [hf])]
  split
  · rename_i snd h
    rw [Game.take_next_card_of_not_finished g hf] at h
    simp at h
  · rename_i card g1 h
    rw [Game.take_next_card_of_not_finished g hf] at h
    injection h with h1 h2
    injection h1 with h1
    subst h1
    subst h2
    rfl

/-- Full characterization of the loop: it always succeeds (the assertion
never fires), stops in `finalState`, and appends `emitted` to the
accumulator. -/
theorem Game.start_loop_eq (move : P → Nat → P) (verbose : Bool) :
    ∀ (N : Nat) (g : Game P) (acc : List (Snapshot P)), g.stepsLeft = N →
      g.start_loop move verbose acc =
        some (g.finalState move, acc ++ g.emitted move verbose) := by
  intro N
  induction N with
  | zero =>
    intro g acc hN
    have hf : g.finished = true := by
      rw [Game.finished_iff]
      simp only [Game.stepsLeft] at hN
      omega
    rw [Game.start_loop]
    simp only [hf, dif_pos]
    have hle : g.limit ≤ g.moves_played := (Game.finished_iff g).mp hf
    have hfin : g.finalState move = g := by
      simp only [Game.finalState, Game.drawnCards, hN, List.take_zero,
        List.foldl_nil, List.map_id_fun, id_eq]
      cases g with
      | mk cards moves players => simp [max_eq_left hle]
    have hemit : g.emitted move verbose = [] := by
      simp [Game.emitted, hN]
    rw [hfin, hemit, List.append_nil]
  | succ N ih =>
    intro g acc hN
    have hf : g.finished = false := by
      rw [Game.finished_eq_false_iff]
      simp only [Game.stepsLeft] at hN
      omega
    have hlt : g.moves_played < g.limit := (Game.finished_eq_false_iff g).mp hf
    have hlen : g.moves_played < g.available_cards.length := by
      simp only [Game.limit, lt_min_iff] at hlt
      exact hlt.2
    set c : Nat := g.available_cards.getD g.moves_played 0 with hc
    set g2 : Game P :=
      { available_cards := g.available_cards
      , moves_played := g.moves_played + 1
      , players := g.players.map (fun p => move p c) } with hg2
    have hsteps2 : g2.stepsLeft = N := by
      simp only [Game.stepsLeft, Game.limit, hg2] at *
      omega
    rw [Game.start_loop_step move verbose g acc hf, ih g2 _ hsteps2]
    -- the two sides agree componentwise
    have hdrop : g.available_cards.drop g.moves_played
        = c :: g.available_cards.drop (g.moves_played + 1) := by
      rw [List.drop_eq_getElem_cons hlen, hc, List.getD_eq_getElem _ _ hlen]
    have hsucc : g.stepsLeft = g2.stepsLeft + 1 := by
      simp only [Game.stepsLeft, Game.limit, hg2] at *
      omega
    have hdrawn : g.drawnCards = c :: g2.drawnCards := by
      simp only [Game.drawnCards, hg2, hdrop, hsucc, List.take_succ_cons]
    have hfinal : g2.finalState move = g.finalState move := by
      simp only [Game.finalState, hg2, hdrawn, List.map_map]
      congr 1
      simp only [Game.limit] at *
      omega
    have hsnap0 : Game.snapshot { g with moves_played := g.moves_played + 1 }
        = g.snapAfter move 0 := by
      simp only [Game.snapshot, Game.snapAfter]
      apply Snapshot.ext
      · simp
      · simp [Game.finished_iff, Game.limit]
      · simp
      · simp
    have hsnapS : ∀ j : Nat, g2.snapAfter move j = g.snapAfter move (j + 1) := by
      intro j
      have harith : g.moves_played + 1 + j = g.moves_played + (j + 1) := by omega
      simp only [Game.snapAfter, hg2, hdrop, List.take_succ_cons]
      apply Snapshot.ext
      · rw [harith]
      · have hl :
            (⟨g.available_cards, g.moves_played + 1,
              g.players.map (fun p => move p c)⟩ : Game P).limit = g.limit := rfl
        rw [hl, harith]
      · rw [harith]
      · simp [List.map_map, Function.comp_def, List.foldl_cons]
    have hemit : (if verbose then
          acc ++ [Game.snapshot { g with moves_played := g.moves_played + 1 }]
        else acc) ++ g2.emitted move verbose = acc ++ g.emitted move verbose := by
      cases verbose with
      | false => simp [Game.emitted]
      | true =>
        simp only [if_pos, Game.emitted, hsteps2]
        have hrange : List.range (g.stepsLeft) = 0 :: (List.range N).map (· + 1) := by
          rw [hN, List.range_succ_eq_map]
        rw [hrange]
        simp only [List.map_cons, List.map_map, List.append_assoc,
          List.singleton_append, Function.comp_def, hsnap0]
        have hmaps : List.map (fun x => g2.snapAfter move x) (List.range N)
            = List.map (fun x => g.snapAfter move (x + 1)) (List.range N) :=
          List.map_congr_left (fun a _ => hsnapS a)
        rw [hmaps]
    rw [hfinal, hemit]

/-- Closed form of a whole run: `start` always succeeds and returns the
evaluator applied to each player's final board, the final state, and the
emitted snapshots. -/
theorem Game.start_eq (move : P → Nat → P) (get_board : P → B) (evaluate : B → S)
    (verbose : Bool) (g : Game P) :
    g.start move get_board evaluate verbose =
      some (g.players.map (fun p => evaluate (get_board (g.drawnCards.foldl move p))),
            g.finalState move, g.emitted move verbose) := by
  unfold Game.start
  rw [Game.start_loop_eq move verbose g.stepsLeft g [] rfl]
  simp [Game.finalState]

theorem Game.finalState_of_finished (move : P → Nat → P) (g : Game P)
    (hf : g.finished = true) : g.finalState move = g := by
  have hle : g.limit ≤ g.moves_played := (Game.finished_iff g).mp hf
  have hzero : g.stepsLeft = 0 := by
    simp only [Game.stepsLeft]
    omega
  simp only [Game.finalState, Game.drawnCards, hzero, List.take_zero,
    List.foldl_nil, List.map_id_fun, id_eq]
  cases g with
  | mk cards moves players => simp [max_eq_left hle]

theorem Game.drawnCards_of_finished (g : Game P) (hf : g.finished = true) :
    g.drawnCards = [] := by
  have hle : g.limit ≤ g.moves_played := (Game.finished_iff g).mp hf
  have hzero : g.stepsLeft = 0 := by
    simp only [Game.stepsLeft]
    omega
  simp [Game.drawnCards, hzero]

theorem Game.emitted_of_finished (move : P → Nat → P) (verbose : Bool) (g : Game P)
    (hf : g.finished = true) : g.emitted move verbose = [] := by
  have hle : g.limit ≤ g.moves_played := (Game.finished_iff g).mp hf
  have hzero : g.stepsLeft = 0 := by
    simp only [Game.stepsLeft]
    omega
  simp [Game.emitted, hzero]

theorem Game.finalState_finished (move : P → Nat → P) (g : Game P) :
    (g.finalState move).finished = true := by
  rw [Game.finished_iff]
  simp only [Game.finalState, Game.limit]
  omega

/-- Trace harness: a sequence of `add_player` calls, recording the returned
indices; it stops at the first `ValueError`. -/
def Game.add_player_seq (g : Game P) : List P → List Nat × Game P
  | [] => ([], g)
  | p :: ps =>
    match g.add_player p with
    | (Except.ok i, g') =>
      let r := g'.add_player_seq ps
      (i :: r.1, r.2)
    | (Except.error _, g') => ([], g')

theorem Game.add_player_seq_indices (ps : List P) :
    ∀ g : Game P, g.moves_played = 0 →
      (g.add_player_seq ps).1 = List.range' g.players.length ps.length := by
  induction ps with
  | nil => intro g h0; simp [Game.add_player_seq]
  | cons p ps ih =>
    intro g h0
    have hadd : g.add_player p
        = (Except.ok g.players.length, { g with players := g.players ++ [p] }) := by
      simp [Game.add_player, h0]
    rw [Game.add_player_seq, hadd]
    have hrec := ih { g with players := g.players ++ [p] } h0
    simp only [List.length_append, List.length_cons, List.length_nil, Nat.zero_add] at hrec
    simp [hrec, List.range'_succ]

/-- C1: `finished` returns true iff the move counter is ≥ the board capacity
(side length squared) or ≥ the deck length; equivalently iff the counter has
reached `min(capacity, deck length)`, so along any run of draws (which only
ever increase the counter) it first becomes true exactly at that point and,
the counter never decreasing, stays true thereafter; in particular one more
draw from a finished state leaves it finished. -/
theorem C1_finished_characterization (g : Game P) :
    (g.finished = true ↔
      (Board.SIZE ^ 2 ≤ g.moves_played ∨ g.available_cards.length ≤ g.moves_played)) ∧
    (g.finished = true ↔
      min (Board.SIZE ^ 2) g.available_cards.length ≤ g.moves_played) ∧
    (g.finished = true → (g.take_next_card).2.finished = true) := by
  refine ⟨by simp [Game.finished], ?_, ?_⟩
  · have h := Game.finished_iff g
    simpa [Game.limit] using h
  · intro hf
    rw [Game.take_next_card_of_finished g hf]
    exact hf

/-- C1 witness: a game whose deck is exhausted (counter 2 on a 2-card deck)
is finished, and stays finished after one more draw. -/
theorem C1_witness :
    ((⟨[9, 8], 2, []⟩ : Game Unit).take_next_card).2.finished = true :=
  (C1_finished_characterization (⟨[9, 8], 2, []⟩ : Game Unit)).2.2 (by decide)

/-- C2: if `finished` is true, `take_next_card` returns `None` and leaves the
state (so in particular the counter) completely unchanged — hence every
repeated call returns `None` again with the counter unchanged; if `finished`
is false it returns the deck entry at the current counter and increments the
counter by exactly 1; and no operation (`take_next_card`, `add_player`,
`start`) ever decreases the counter. -/
theorem C2_take_next_card_spec (g : Game P) :
    (g.finished = true → g.take_next_card = (none, g)) ∧
    (g.finished = false →
      (g.take_next_card).1 = g.available_cards[g.moves_played]? ∧
      (g.take_next_card).2 = { g with moves_played := g.moves_played + 1 }) ∧
    g.moves_played ≤ (g.take_next_card).2.moves_played ∧
    (∀ p : P, g.moves_played ≤ (g.add_player p).2.moves_played) ∧
    (∀ (B S : Type) (move : P → Nat → P) (get_board : P → B) (evaluate : B → S)
        (verbose : Bool) (r : List S × Game P × List (Snapshot P)),
      g.start move get_board evaluate verbose = some r →
        g.moves_played ≤ r.2.1.moves_played) := by
  refine ⟨Game.take_next_card_of_finished g, ?_, ?_, ?_, ?_⟩
  · intro hf
    have hlen : g.moves_played < g.available_cards.length := by
      have := (Game.finished_eq_false_iff g).mp hf
      simp only [Game.limit, lt_min_iff] at this
      exact this.2
    rw [Game.take_next_card_of_not_finished g hf]
    exact ⟨by rw [List.getD_eq_getElem _ _ hlen, List.getElem?_eq_getElem hlen], rfl⟩
  · unfold Game.take_next_card
    split <;> simp
  · intro p
    unfold Game.add_player
    split <;> simp
  · intro B S move get_board evaluate verbose r hr
    rw [Game.start_eq] at hr
    obtain rfl : r = _ := (Option.some.injEq .. ▸ hr).symm
    simp only [Game.finalState]
    omega

/-- C2 witness: on a running game (`counter 0`, deck `[9, 8]`) the draw
returns card 9 and bumps the counter to 1; on a finished game (counter 2)
the draw returns `None` and changes nothing. -/
theorem C2_witness :
    ((⟨[9, 8], 0, []⟩ : Game Unit).take_next_card).1 = some 9 ∧
    ((⟨[9, 8], 0, []⟩ : Game Unit).take_next_card).2
      = (⟨[9, 8], 1, []⟩ : Game Unit) ∧
    (⟨[9, 8], 2, []⟩ : Game Unit).take_next_card = (none, ⟨[9, 8], 2, []⟩) := by
  have h1 := (C2_take_next_card_spec (⟨[9, 8], 0, []⟩ : Game Unit)).2.1 (by decide)
  have h2 := (C2_take_next_card_spec (⟨[9, 8], 2, []⟩ : Game Unit)).1 (by decide)
  exact ⟨by rw [h1.1]; decide, h1.2, h2⟩

/-- C3: `add_player` fails with `ValueError "Game is in progress"` iff the
move counter is nonzero, and then the state (in particular the roster) is
returned unchanged — registration is atomic; with counter 0 it appends the
player and returns its zero-based position (the old roster length), so a run
of successful registrations starting from roster length `k` returns the
strictly increasing indices `k, k+1, ...` — from an empty roster, `0, 1, 2,
...`. -/
theorem C3_add_player_spec (g : Game P) (p : P) :
    ((g.add_player p).1 = Except.error "Game is in progress" ↔ g.moves_played ≠ 0) ∧
    (g.moves_played ≠ 0 → g.add_player p = (Except.error "Game is in progress", g)) ∧
    (g.moves_played = 0 →
      g.add_player p
        = (Except.ok g.players.length, { g with players := g.players ++ [p] })) ∧
    (∀ ps : List P, g.moves_played = 0 →
      (g.add_player_seq ps).1 = List.range' g.players.length ps.length) ∧
    (g.players = [] → ∀ ps : List P, g.moves_played = 0 →
      (g.add_player_seq ps).1 = List.range ps.length) := by
  have hok : g.moves_played = 0 →
      g.add_player p
        = (Except.ok g.players.length, { g with players := g.players ++ [p] }) := by
    intro h0
    simp [Game.add_player, h0]
  have herr : g.moves_played ≠ 0 →
      g.add_player p = (Except.error "Game is in progress", g) := by
    intro hne
    simp [Game.add_player, hne]
  refine ⟨⟨?_, fun hne => by rw [herr hne]⟩, herr, hok,
    fun ps => Game.add_player_seq_indices ps g, ?_⟩
  · intro he
    by_contra h0
    rw [hok h0] at he
    exact absurd he (by simp)
  · intro hemp ps h0
    rw [Game.add_player_seq_indices ps g h0, hemp]
    simp [List.range_eq_range']

/-- C3 witness: on a fresh two-player setup the registrations return 0 then
1; after one draw (counter 1) registration fails and the state is unchanged. -/
theorem C3_witness :
    (⟨[9, 8], 0, []⟩ : Game Bool).add_player true
      = (Except.ok 0, ⟨[9, 8], 0, [true]⟩) ∧
    ((⟨[9, 8], 0, []⟩ : Game Bool).add_player_seq [true, false]).1 = [0, 1] ∧
    (⟨[9, 8], 1, [true]⟩ : Game Bool).add_player false
      = (Except.error "Game is in progress", ⟨[9, 8], 1, [true]⟩) := by
  have h1 := (C3_add_player_spec (⟨[9, 8], 0, []⟩ : Game Bool) true).2.2.1 (by decide)
  have h2 := (C3_add_player_spec (⟨[9, 8], 0, []⟩ : Game Bool) true).2.2.2.2
    (by decide) [true, false] (by decide)
  have h3 := (C3_add_player_spec (⟨[9, 8], 1, [true]⟩ : Game Bool) false).2.1 (by decide)
  exact ⟨h1, by rw [h2]; decide, h3⟩

/-- C4: a run over a game with `N` registered players returns exactly `N`
scores, in registration order: `score[i]` is the evaluator applied to the
board obtained (via `get_board`) from the player registered at index `i`
after it has consumed, in order, every drawn card. -/
theorem C4_score_alignment (move : P → Nat → P) (get_board : P → B)
    (evaluate : B → S) (verbose : Bool) (g : Game P) :
    (g.start move get_board evaluate verbose).map (fun r => r.1)
      = some (g.players.map
          (fun p => evaluate (get_board (g.drawnCards.foldl move p)))) ∧
    (∀ (scores : List S) (g' : Game P) (tr : List (Snapshot P)),
      g.start move get_board evaluate verbose = some (scores, g', tr) →
        scores.length = g.players.length ∧
        ∀ (i : Nat) (hs : i < scores.length) (hi : i < g.players.length),
          scores.get ⟨i, hs⟩
            = evaluate (get_board
                (g.drawnCards.foldl move (g.players.get ⟨i, hi⟩)))) := by
  constructor
  · rw [Game.start_eq]
    rfl
  · intro scores g' tr hr
    rw [Game.start_eq] at hr
    have hsc : scores = g.players.map
        (fun p => evaluate (get_board (g.drawnCards.foldl move p))) := by
      have := congrArg (fun r => r.map (fun x => x.1)) hr
      simpa using this.symm
    subst hsc
    refine ⟨by simp, ?_⟩
    intro i hs hi
    simp [List.get_eq_getElem, List.getElem_map]

/-- C4 witness: deck `[3, 4]` (2 cards, so 2 draws), two players `10` and
`20` that add each drawn card; the run returns exactly the two scores
`[17, 27]` and `score[0]` is the evaluator on player 0's final board. -/
theorem C4_witness :
    ([17, 27] : List Nat).length = ([10, 20] : List Nat).length ∧
    ([17, 27] : List Nat).get ⟨0, by decide⟩ = 17 := by
  have hstart : (⟨[3, 4], 0, [10, 20]⟩ : Game Nat).start
      (fun p c => p + c) (fun p => p) (fun b => b) false
      = some ([17, 27], ⟨[3, 4], 2, [17, 27]⟩, []) := by
    rw [Game.start_eq]
    decide
  have h := (C4_score_alignment (fun p c => p + c) (fun p => p) (fun b => b)
      false (⟨[3, 4], 0, [10, 20]⟩ : Game Nat)).2
    [17, 27] (⟨[3, 4], 2, [17, 27]⟩ : Game Nat) [] hstart
  refine ⟨h.1, ?_⟩
  have h2 := h.2 0 (by decide) (by decide)
  exact h2.trans (by decide)

/-- C5 counterexample: deck `[4, 7, 9]`, no players, tracing on.  The first
iteration draws card 4 (deck position 0) and delivers it to the players, yet
the snapshot emitted during that very iteration lists `[4]` — not `[]`, the
cards drawn strictly before — as already played, and shows as "current card"
the value 7 (deck position 1), a card of the future deck tail that has not
been delivered to anybody, instead of the card 4 about to be played. -/
theorem C5_counterexample :
    (⟨[4, 7, 9], 0, []⟩ : Game Unit).start (fun p _ => p) (fun p => p)
        (fun b => b) true
      = some ([], ⟨[4, 7, 9], 3, []⟩,
          [⟨[4], some 7, 1, []⟩, ⟨[4, 7], some 9, 2, []⟩,
           ⟨[4, 7, 9], none, 3, []⟩]) ∧
    (⟨[4], some 7, 1, []⟩ : Snapshot Unit).moves_played_list ≠ [] ∧
    (⟨[4], some 7, 1, []⟩ : Snapshot Unit).current_card ≠ some 4 ∧
    (⟨[4], some 7, 1, []⟩ : Snapshot Unit).current_card
      = (([4, 7, 9] : List Nat).drop 1).head? := by
  refine ⟨?_, by decide, by decide, by decide⟩
  rw [Game.start_eq]
  decide

/-- C5 (amended): the snapshot emitted during iteration `j` of a traced run
is printed after `take_next_card` has already advanced the counter: it lists
as already played the cards drawn up to *and including* the card of this
iteration (the deck prefix of length `counter + j + 1`), shows as "current
card" the *next* undrawn deck entry — one card of the future deck tail,
which the players have not yet received — or "none" when that draw finished
the game, and shows the already-incremented move number. -/
theorem C5_amended_trace (move : P → Nat → P) (get_board : P → B)
    (evaluate : B → S) (g : Game P) :
    g.start move get_board evaluate true
      = some (g.players.map
            (fun p => evaluate (get_board (g.drawnCards.foldl move p))),
          g.finalState move,
          (List.range (min (Board.SIZE ^ 2) g.available_cards.length
              - g.moves_played)).map
            (fun j =>
              { moves_played_list :=
                  g.available_cards.take (g.moves_played + j + 1)
              , current_card :=
                  if min (Board.SIZE ^ 2) g.available_cards.length
                      ≤ g.moves_played + j + 1 then none
                  else some (g.available_cards.getD (g.moves_played + j + 1) 0)
              , move_number := g.moves_played + j + 1
              , players := g.players.map
                  (fun p =>
                    ((g.available_cards.drop g.moves_played).take j).foldl
                      move p) })) := by
  rw [Game.start_eq]
  simp [Game.emitted, Game.snapAfter, Game.stepsLeft, Game.limit]

/-- C6: whatever permutation `rnd.shuffle` produced, a constructed game's
deck is a permutation of the multiset with each rank 1..13 exactly 4 times
(52 cards), and no operation — a draw, a registration, a snapshot (which is
read-only by construction) or a whole run — ever changes the deck. -/
theorem C6_deck_invariant (shuffled : List Nat) (g : Game P) :
    (shuffled.Perm freshDeck →
      (Game.init P shuffled).available_cards.Perm freshDeck ∧
      (Game.init P shuffled).available_cards.length = 52 ∧
      ∀ v ∈ Finset.Icc 1 13, (Game.init P shuffled).available_cards.count v = 4) ∧
    (g.take_next_card).2.available_cards = g.available_cards ∧
    (∀ p : P, (g.add_player p).2.available_cards = g.available_cards) ∧
    (∀ (B S : Type) (move : P → Nat → P) (get_board : P → B) (evaluate : B → S)
        (verbose : Bool) (r : List S × Game P × List (Snapshot P)),
      g.start move get_board evaluate verbose = some r →
        r.2.1.available_cards = g.available_cards) := by
  refine ⟨?_, ?_, ?_, ?_⟩
  · intro hp
    refine ⟨hp, ?_, ?_⟩
    · rw [Game.init, hp.length_eq]
      decide
    · intro v hv
      rw [Game.init, hp.count_eq]
      revert hv
      revert v
      decide
  · unfold Game.take_next_card
    split <;> rfl
  · intro p
    unfold Game.add_player
    split <;> rfl
  · intro B S move get_board evaluate verbose r hr
    rw [Game.start_eq] at hr
    obtain rfl : r = _ := (Option.some.injEq .. ▸ hr).symm
    rfl

/-- C6 witness: the identity shuffle is a permutation, and then the deck of
the constructed game holds rank 7 exactly 4 times; a draw on a sample game
keeps the deck intact. -/
theorem C6_witness :
    (Game.init Unit freshDeck).available_cards.count 7 = 4 ∧
    ((⟨[4, 7], 0, []⟩ : Game Unit).take_next_card).2.available_cards = [4, 7] := by
  have h1 := (C6_deck_invariant freshDeck (⟨[4, 7], 0, []⟩ : Game Unit)).1
    (List.Perm.refl freshDeck)
  have h2 := (C6_deck_invariant freshDeck (⟨[4, 7], 0, []⟩ : Game Unit)).2.1
  exact ⟨h1.2.2 7 (by decide), h2⟩

/-- C7: the move counter starts at 0 and is a natural number (the code only
ever adds 1 to its initial value 0, so it is never negative); whenever the
invariant `counter ≤ deck length` holds it is preserved by a draw, by a
registration and by a whole run. -/
theorem C7_counter_invariant (shuffled : List Nat) (g : Game P) :
    (Game.init P shuffled).moves_played = 0 ∧
    (g.moves_played ≤ g.available_cards.length →
      ((g.take_next_card).2.moves_played
          ≤ (g.take_next_card).2.available_cards.length ∧
       (∀ p : P, (g.add_player p).2.moves_played
          ≤ (g.add_player p).2.available_cards.length) ∧
       (∀ (B S : Type) (move : P → Nat → P) (get_board : P → B)
          (evaluate : B → S) (verbose : Bool)
          (r : List S × Game P × List (Snapshot P)),
        g.start move get_board evaluate verbose = some r →
          r.2.1.moves_played ≤ r.2.1.available_cards.length))) := by
  refine ⟨rfl, ?_⟩
  intro hinv
  refine ⟨?_, ?_, ?_⟩
  · match hf : g.finished with
    | true => rw [Game.take_next_card_of_finished g hf]; exact hinv
    | false =>
      rw [Game.take_next_card_of_not_finished g hf]
      have := (Game.finished_eq_false_iff g).mp hf
      simp only [Game.limit, lt_min_iff] at this
      exact this.2
  · intro p
    unfold Game.add_player
    split <;> simpa
  · intro B S move get_board evaluate verbose r hr
    rw [Game.start_eq] at hr
    obtain rfl : r = _ := (Option.some.injEq .. ▸ hr).symm
    simp only [Game.finalState, Game.limit]
    omega

/-- C7 witness: with counter 1 on a 2-card deck the invariant holds and is
preserved by the next draw. -/
theorem C7_witness :
    ((⟨[4, 7], 1, []⟩ : Game Unit).take_next_card).2.moves_played
      ≤ ((⟨[4, 7], 1, []⟩ : Game Unit).take_next_card).2.available_cards.length :=
  ((C7_counter_invariant [] (⟨[4, 7], 1, []⟩ : Game Unit)).2 (by decide)).1

/-- C8: the `assert next_card is not None` in the run loop can never fire:
whenever `finished` is false `take_next_card` returns a real card, and hence
`start` always returns a result (never the assertion-failure value `none`)
— the run is total. -/
theorem C8_assert_never_fails (g : Game P) (move : P → Nat → P)
    (get_board : P → B) (evaluate : B → S) (verbose : Bool) :
    (g.finished = false → ((g.take_next_card).1).isSome = true) ∧
    (g.start move get_board evaluate verbose).isSome = true := by
  constructor
  · intro hf
    rw [Game.take_next_card_of_not_finished g hf]
    rfl
  · rw [Game.start_eq]
    rfl

/-- C8 witness: on a running game the drawn card is a real card. -/
theorem C8_witness :
    (((⟨[4, 7], 0, []⟩ : Game Unit).take_next_card).1).isSome = true :=
  (C8_assert_never_fails (⟨[4, 7], 0, []⟩ : Game Unit) (fun p _ => p)
    (fun p => p) (fun b => b) false).1 (by decide)

/-- C9: a freshly constructed game has an empty roster, so `start` completes
(returns a result, never an assertion failure) and its score list is empty,
whatever the shuffle and the collaborators. -/
theorem C9_zero_players_empty_scores (shuffled : List Nat) (move : P → Nat → P)
    (get_board : P → B) (evaluate : B → S) (verbose : Bool) :
    ((Game.init P shuffled).start move get_board evaluate verbose).isSome = true ∧
    ((Game.init P shuffled).start move get_board evaluate verbose).map
        (fun r => r.1) = some [] := by
  rw [Game.start_eq]
  exact ⟨rfl, rfl⟩

/-- C10: running `start` on an already-finished game performs zero loop
iterations: no card is drawn, no player's `move` is invoked, the counter,
roster and deck are exactly as before (the returned final state is the input
state, and no snapshot is emitted even with tracing on), yet it still
returns one evaluated score per registered player; moreover the final state
of *any* run is finished, so `start` can be called again after a completed
run and yields the scores without further mutation. -/
theorem C10_start_on_finished (g : Game P) (move : P → Nat → P)
    (get_board : P → B) (evaluate : B → S) (verbose : Bool) :
    (g.finished = true →
      g.start move get_board evaluate verbose
        = some (g.players.map (fun p => evaluate (get_board p)), g, []) ∧
      (g.players.map (fun p => evaluate (get_board p))).length
        = g.players.length) ∧
    (∀ r : List S × Game P × List (Snapshot P),
      g.start move get_board evaluate verbose = some r →
        r.2.1.finished = true) := by
  constructor
  · intro hf
    refine ⟨?_, by simp⟩
    rw [Game.start_eq, Game.finalState_of_finished move g hf,
      Game.drawnCards_of_finished g hf, Game.emitted_of_finished move verbose g hf]
    rfl
  · intro r hr
    rw [Game.start_eq] at hr
    obtain rfl : r = _ := (Option.some.injEq .. ▸ hr).symm
    exact Game.finalState_finished move g

/-- C10 witness: a finished game (counter 2, deck `[4, 7]`, one player) run
with tracing on returns one score, the unchanged state, and no snapshots. -/
theorem C10_witness :
    (⟨[4, 7], 2, [3]⟩ : Game Nat).start (fun p c => p + c) (fun p => p)
        (fun b => b + 1) true
      = some ([4], ⟨[4, 7], 2, [3]⟩, []) := by
  have h := (C10_start_on_finished (⟨[4, 7], 2, [3]⟩ : Game Nat)
    (fun p c => p + c) (fun p => p) (fun b => b + 1) true).1 (by decide)
  exact h.1

end Mathematico
